import Mathlib

/-!
Shallow embedding of the content-acquisition core of the
pulsegen-webscraping repository (src/extractor/crawler.py), together
with theorems checking the specification's claims about it.

Modelling conventions:
* Python strings are modelled as `List Char` (`Str`); `str` injects Lean
  string literals.  Character classification (`isalnum`, `isspace`) is
  modelled on the ASCII range, which covers every literal the code and
  the claims use.
* Python float comparisons `a / t < 0.6` and `u / w < 0.3` are modelled
  as the exact rational comparisons `5 * a < 3 * t` and `10 * u < 3 * w`;
  for the list lengths reachable by real strings the two agree.
* Network effects are abstracted into an environment `Env` that gives,
  per URL, either the ordered list of the six acquisition strategies'
  outcomes (a raised exception or a returned `(text, document)` pair) or
  an unexpected exception escaping the strategy orchestrator.  All code
  below the strategy boundary is translated directly from the source.
* BeautifulSoup document trees are modelled by `Html`, a first-child /
  next-sibling encoding of the element/text forest (this keeps every
  traversal structurally recursive and hence computable by the kernel).
-/

abbrev Str := List Char

def str (s : String) : Str := s.data

/-- ASCII whitespace, as recognised by Python str.strip / str.split / str.isspace. -/
def pyIsSpace (c : Char) : Bool :=
  c == ' ' || c == '\t' || c == '\n' || c == '\r' || c == '\x0b' || c == '\x0c'

/-- Python str.strip(): remove leading and trailing whitespace. -/
def pyStrip (s : Str) : Str :=
  ((s.dropWhile pyIsSpace).reverse.dropWhile pyIsSpace).reverse

def pySplitGo : Str → Str → List Str
  | [], acc => if acc.isEmpty then [] else [acc.reverse]
  | c :: cs, acc =>
    if pyIsSpace c then
      if acc.isEmpty then pySplitGo cs [] else acc.reverse :: pySplitGo cs []
    else pySplitGo cs (c :: acc)

/-- Python str.split() with no argument: split on whitespace runs, no empty tokens. -/
def pySplit (s : Str) : List Str := pySplitGo s []

def splitNlGo : Str → Str → List Str
  | [], acc => [acc.reverse]
  | c :: cs, acc => if c == '\n' then acc.reverse :: splitNlGo cs [] else splitNlGo cs (c :: acc)

/-- Python text.split(chr(10)): split at every newline, keeping empty pieces. -/
def splitNl (s : Str) : List Str := splitNlGo s []

/-- Python startswith on the model strings. -/
def startsWithS : Str → Str → Bool
  | [], _ => true
  | _ :: _, [] => false
  | p :: ps, c :: cs => p == c && startsWithS ps cs

/-- Python substring containment (the binary operator in, with the needle first). -/
def subOf (p : Str) : Str → Bool
  | [] => startsWithS p []
  | c :: cs => startsWithS p (c :: cs) || subOf p cs

def lowerS (s : Str) : Str := s.map Char.toLower

/-- crawler.clean_text: strip every line, drop blank lines, rejoin with newlines. -/
def clean_text (t : Str) : Str :=
  if t = [] then []
  else List.intercalate (str "\n") (((splitNl t).map pyStrip).filter (fun l => l ≠ []))

/-- Count of characters satisfying c.isalnum() or c.isspace() (ASCII model). -/
def alnumSpaceCount (t : Str) : Nat :=
  (t.filter (fun c => c.isAlphanum || pyIsSpace c)).length

/-- crawler.is_content_meaningful, translated clause by clause. -/
def is_content_meaningful (text : Str) : Bool :=
  if text = [] ∨ (pyStrip text).length < 20 then false
  else if text.length = 0 then false
  else if 5 * alnumSpaceCount text < 3 * text.length then false
  else if 10 < (pySplit text).length ∧
          10 * (pySplit text).dedup.length < 3 * (pySplit text).length then false
  else true

/-! URL handling: models of urllib.parse.urlparse / urljoin restricted to the
fields and cases this code exercises (scheme, netloc, path; absolute,
root-relative and simple relative hrefs; no dot-segment normalisation). -/

structure UrlParts where
  scheme : Str
  netloc : Str
  path : Str
deriving DecidableEq

def isSchemeChar (c : Char) : Bool := c.isAlpha || c.isDigit || c == '+' || c == '-' || c == '.'

def splitColon : Str → Option (Str × Str)
  | [] => none
  | c :: cs =>
    if c = ':' then some ([], cs)
    else
      match splitColon cs with
      | some (a, b) => some (c :: a, b)
      | none => none

def notNetlocEnd (c : Char) : Bool := !(c == '/' || c == '?' || c == '#')

def notPathEnd (c : Char) : Bool := !(c == '?' || c == '#')

def urlparse (u : Str) : UrlParts :=
  let schemeRest : Str × Str :=
    match splitColon u with
    | some (pre, post) =>
      if pre ≠ [] ∧ pre.all isSchemeChar ∧ (pre.headD ' ').isAlpha
      then (pre.map Char.toLower, post)
      else ([], u)
    | none => ([], u)
  let rest := schemeRest.2
  let netlocRest : Str × Str :=
    if rest.take 2 = str "//"
    then ((rest.drop 2).takeWhile notNetlocEnd, (rest.drop 2).dropWhile notNetlocEnd)
    else ([], rest)
  ⟨schemeRest.1, netlocRest.1, netlocRest.2.takeWhile notPathEnd⟩

/-- crawler.is_valid_url: both scheme and netloc must be present. -/
def is_valid_url (url : Str) : Bool :=
  !(urlparse url).scheme.isEmpty && !(urlparse url).netloc.isEmpty

/-- The skip_patterns literal of crawler.should_skip_url. -/
def skip_patterns : List Str :=
  [str ".zip", str ".tar.gz", str ".tar.bz2", str ".pdf", str ".doc", str ".docx",
   str "/archives/", str "/download/", str "/downloads/", str "/releases/",
   str "/api/", str "/json", str "/xml", str "/rss",
   str ".jpg", str ".jpeg", str ".png", str ".gif", str ".svg", str ".mp4", str ".mp3",
   str "/search", str "/login", str "/register", str "/logout", str "/admin"]

/-- crawler.should_skip_url. -/
def should_skip_url (url : Str) : Bool :=
  skip_patterns.any (fun p => subOf p (lowerS url))

def dirOfPath (p : Str) : Str :=
  (p.reverse.dropWhile (fun c => !(c == '/'))).reverse

/-- Model of urllib.parse.urljoin on the href shapes a crawl encounters. -/
def urljoin (base href : Str) : Str :=
  if href = [] then base
  else if (urlparse href).scheme ≠ [] then href
  else if href.take 2 = str "//" then (urlparse base).scheme ++ [':'] ++ href
  else if href.take 1 = str "/" then
    (urlparse base).scheme ++ str "://" ++ (urlparse base).netloc ++ href
  else
    (urlparse base).scheme ++ str "://" ++ (urlparse base).netloc ++
      (if dirOfPath (urlparse base).path = [] then str "/" else dirOfPath (urlparse base).path) ++ href

/-! Correctness facts about the string utilities used by later proofs. -/

theorem startsWithS_iff (p s : Str) : startsWithS p s = true ↔ ∃ r, s = p ++ r := by
  induction p generalizing s with
  | nil => simp [startsWithS]
  | cons x xs ih =>
    cases s with
    | nil => simp [startsWithS]
    | cons c cs =>
      simp only [startsWithS, Bool.and_eq_true, beq_iff_eq, ih]
      constructor
      · rintro ⟨rfl, r, rfl⟩; exact ⟨r, rfl⟩
      · rintro ⟨r, h⟩
        injection h with h1 h2
        exact ⟨h1.symm, r, h2⟩

theorem subOf_iff (p s : Str) : subOf p s = true ↔ ∃ a b, s = a ++ p ++ b := by
  induction s with
  | nil =>
    simp only [subOf, startsWithS_iff]
    constructor
    · rintro ⟨r, h⟩
      exact ⟨[], r, by simpa using h⟩
    · rintro ⟨a, b, h⟩
      rcases List.append_eq_nil.mp h.symm with ⟨h3, h4⟩
      rcases List.append_eq_nil.mp h3 with ⟨h5, h6⟩
      exact ⟨[], by simp [h6]⟩
  | cons c cs ih =>
    simp only [subOf, Bool.or_eq_true, startsWithS_iff, ih]
    constructor
    · rintro (⟨r, h⟩ | ⟨a, b, h⟩)
      · exact ⟨[], r, by simpa using h⟩
      · exact ⟨c :: a, b, by simp [h]⟩
    · rintro ⟨a, b, h⟩
      cases a with
      | nil => exact Or.inl ⟨b, by simpa using h⟩
      | cons a0 as =>
        injection h with h1 h2
        exact Or.inr ⟨as, b, h2⟩

theorem subOf_append_of_subOf (m j s : Str) (h : subOf (m ++ j) s = true) : subOf m s = true := by
  rcases (subOf_iff _ _).mp h with ⟨a, b, rfl⟩
  exact (subOf_iff _ _).mpr ⟨a, j ++ b, by simp⟩

theorem subOf_of_parts (m a b : Str) : subOf m (a ++ m ++ b) = true :=
  (subOf_iff _ _).mpr ⟨a, b, rfl⟩

theorem startsWithS_of_append (p r : Str) : startsWithS p (p ++ r) = true :=
  (startsWithS_iff _ _).mpr ⟨r, rfl⟩

set_option maxRecDepth 40000

/-- Claim C3: is_content_meaningful is a total boolean predicate on strings:
false when the stripped text has fewer than 20 characters; false when the
alphanumeric-or-whitespace character count, relative to the total length,
falls below the 0.6 ratio; false when there are more than 10 tokens and
the distinct-token ratio falls below 0.3; true otherwise.  Concretely it
rejects the empty string, accepts thirty letters, rejects 1000 symbol
characters, and rejects one word repeated fifty times. -/
theorem is_content_meaningful_spec :
    (∀ t : Str, (pyStrip t).length < 20 → is_content_meaningful t = false) ∧
    (∀ t : Str, 5 * alnumSpaceCount t < 3 * t.length → is_content_meaningful t = false) ∧
    (∀ t : Str, 10 < (pySplit t).length →
      10 * (pySplit t).dedup.length < 3 * (pySplit t).length →
      is_content_meaningful t = false) ∧
    (∀ t : Str, 20 ≤ (pyStrip t).length →
      3 * t.length ≤ 5 * alnumSpaceCount t →
      (10 < (pySplit t).length → 3 * (pySplit t).length ≤ 10 * (pySplit t).dedup.length) →
      is_content_meaningful t = true) ∧
    is_content_meaningful [] = false ∧
    is_content_meaningful (List.replicate 30 'a') = true ∧
    is_content_meaningful (List.replicate 1000 '?') = false ∧
    is_content_meaningful (List.flatten (List.replicate 50 (str "word "))) = false := by
  refine ⟨?_, ?_, ?_, ?_, by decide, by decide, by decide, by decide⟩
  · intro t h
    unfold is_content_meaningful
    rw [if_pos (Or.inr h)]
  · intro t h
    unfold is_content_meaningful
    split_ifs with h1 h2 h3 h4 <;> first | rfl | exact absurd h h3
  · intro t h1 h2
    unfold is_content_meaningful
    split_ifs with g1 g2 g3 g4 <;> first | rfl | exact absurd ⟨h1, h2⟩ g4
  · intro t hlen hratio hrep
    unfold is_content_meaningful
    split_ifs with g1 g2 g3 g4
    · rcases g1 with g1 | g1
      · subst g1; simp [pyStrip] at hlen
      · omega
    · exact absurd (List.length_eq_zero.mp g2) (by
        intro h; subst h; simp [pyStrip] at hlen)
    · omega
    · exact absurd (hrep g4.1) (by omega)
    · rfl

/-- Witness for C3 at a concrete input: nineteen letters strip to below the
length gate and are rejected. -/
theorem is_content_meaningful_spec_wit :
    is_content_meaningful (List.replicate 19 'a') = false :=
  is_content_meaningful_spec.1 (List.replicate 19 'a') (by decide)

/-! BeautifulSoup document model.  `Html` is a first-child / next-sibling
encoding of the parsed element/text forest; every query below walks it in
document (preorder) order, matching BeautifulSoup's find / find_all. -/

inductive Html where
  | nil : Html
  | txt (s : Str) (next : Html) : Html
  | elem (tag : Str) (attrs : List (Str × Str)) (child : Html) (next : Html) : Html
deriving DecidableEq

/-- All text-node strings of a subtree-plus-siblings, in document order. -/
def htmlStrings : Html → List Str
  | .nil => []
  | .txt s nx => s :: htmlStrings nx
  | .elem _ _ ch nx => htmlStrings ch ++ htmlStrings nx

/-- BeautifulSoup el.get_text(separator=newline, strip=True): each descendant
string stripped, empties dropped, joined by newlines. -/
def getTextStrip (el : Html) : Str :=
  List.intercalate (str "\n") (((htmlStrings el).map pyStrip).filter (fun l => l ≠ []))

def getAttr (attrs : List (Str × Str)) (k : Str) : Option Str :=
  (attrs.find? (fun kv => kv.1 == k)).map (fun kv => kv.2)

/-- One soup.find(...) keyword pattern from the candidates table. -/
inductive Selector where
  | byTag (t : Str)
  | byClass (c : Str)
  | byRole (r : Str)
  | byId (i : Str)

/-- BeautifulSoup match semantics for each pattern kind (class_ matches a
whitespace-separated class token; role and id match exactly). -/
def selMatches : Selector → Str → List (Str × Str) → Bool
  | .byTag t, tag, _ => tag == t
  | .byClass c, _, attrs =>
    match getAttr attrs (str "class") with
    | some v => (pySplit v).contains c
    | none => false
  | .byRole r, _, attrs => getAttr attrs (str "role") == some r
  | .byId i, _, attrs => getAttr attrs (str "id") == some i

/-- soup.find: first matching element in document order (the found element is
returned with its sibling chain cut, so its text is just its subtree). -/
def findSel (sel : Selector) : Html → Option Html
  | .nil => none
  | .txt _ nx => findSel sel nx
  | .elem t a ch nx =>
    if selMatches sel t a then some (.elem t a ch .nil)
    else
      match findSel sel ch with
      | some r => some r
      | none => findSel sel nx

/-- The candidates table of extract_main_content, in source order. -/
def candidates : List Selector :=
  [.byTag (str "main"), .byTag (str "article"), .byRole (str "main"),
   .byClass (str "help-center"), .byClass (str "support"), .byClass (str "docs"),
   .byClass (str "documentation"), .byClass (str "doc-content"), .byClass (str "content"),
   .byClass (str "page-content"), .byClass (str "entry-content"), .byClass (str "post-content"),
   .byClass (str "container"), .byClass (str "wrapper"),
   .byId (str "content"), .byId (str "main-content"), .byId (str "doc-content"), .byId (str "main"),
   .byClass (str "uiContextualLayerPositioner"), .byClass (str "markdown-body"),
   .byClass (str "wiki-content"), .byClass (str "body"), .byClass (str "document"),
   .byClass (str "article-body"), .byClass (str "section-content")]

/-- Strategy 1 loop of extract_main_content: first candidate whose cleaned
text exceeds 100 characters wins. -/
def tryCandidates (root : Html) : List Selector → Option Str
  | [] => none
  | sel :: rest =>
    match findSel sel root with
    | some el =>
      if 100 < (clean_text (getTextStrip el)).length then some (clean_text (getTextStrip el))
      else tryCandidates root rest
    | none => tryCandidates root rest

def content_tags : List Str :=
  [str "div", str "section", str "article", str "main", str "aside"]

/-- soup.find_all(content_tags): all block-level container elements, preorder. -/
def findBlocks : Html → List Html
  | .nil => []
  | .txt _ nx => findBlocks nx
  | .elem t a ch nx =>
    (if content_tags.contains t then [Html.elem t a ch .nil] else []) ++
      findBlocks ch ++ findBlocks nx

def exclude_classes : List Str :=
  [str "nav", str "navigation", str "header", str "footer", str "sidebar",
   str "menu", str "breadcrumb"]

def exclude_ids : List Str :=
  [str "nav", str "navigation", str "header", str "footer", str "sidebar", str "menu"]

/-- The navigation/header/footer/sidebar filter of strategy 2 (substring match
on the joined lowercased class string and on the lowercased id). -/
def blockExcluded (attrs : List (Str × Str)) : Bool :=
  (match getAttr attrs (str "class") with
   | some v =>
     exclude_classes.any (fun e => subOf e (lowerS (List.intercalate (str " ") (pySplit v))))
   | none => false) ||
  (match getAttr attrs (str "id") with
   | some v => exclude_ids.any (fun e => subOf e (lowerS v))
   | none => false)

/-- Strategy 2 candidate texts: cleaned text of every non-excluded block
longer than 200 characters, in document order. -/
def meaningfulTexts (root : Html) : List Str :=
  (findBlocks root).filterMap (fun b =>
    match b with
    | .elem _ a _ _ =>
      if blockExcluded a then none
      else if 200 < (clean_text (getTextStrip b)).length then some (clean_text (getTextStrip b))
      else none
    | _ => none)

/-- Python max(..) with a length key: first maximum in list order wins. -/
def largestText : List Str → Option Str
  | [] => none
  | t :: ts => some (ts.foldl (fun best x => if best.length < x.length then x else best) t)

/-- crawler.extract_main_content: named containers, then largest meaningful
block, then full body text, else empty. -/
def extract_main_content (root : Html) (_url : Str) : Str :=
  match tryCandidates root candidates with
  | some t => t
  | none =>
    match largestText (meaningfulTexts root) with
    | some t => t
    | none =>
      match findSel (.byTag (str "body")) root with
      | some b =>
        if 100 < (clean_text (getTextStrip b)).length then clean_text (getTextStrip b) else []
      | none => []

def mainText : Str := List.replicate 150 'a'

def sidebarText : Str := List.replicate 300 'b'

/-- The claim's test document: a main element with 150 characters beside a
larger sidebar div. -/
def exampleDocMain : Html :=
  .elem (str "html") []
    (.elem (str "body") []
      (.elem (str "main") [] (.txt mainText .nil)
        (.elem (str "div") [(str "class", str "sidebar")] (.txt sidebarText .nil) .nil))
      .nil)
    .nil

/-- Two equally large plain blocks: document order must break the tie. -/
def docTie : Html :=
  .elem (str "html") []
    (.elem (str "body") []
      (.elem (str "div") [] (.txt (List.replicate 250 'c') .nil)
        (.elem (str "div") [] (.txt (List.replicate 250 'd') .nil) .nil))
      .nil)
    .nil

/-- A big navigation-classed block must lose to a smaller plain block. -/
def docNav : Html :=
  .elem (str "html") []
    (.elem (str "body") []
      (.elem (str "div") [(str "class", str "navbar")] (.txt (List.replicate 300 'e') .nil)
        (.elem (str "div") [] (.txt (List.replicate 250 'f') .nil) .nil))
      .nil)
    .nil

/-- Claim C6: extract_main_content tries candidates in strict priority order:
whenever a main element is present with more than 100 characters of cleaned
text, its text is returned no matter what other blocks exist; on the claim's
concrete document the 150-character main wins over the 300-character sidebar;
the largest-block stage breaks ties by document order and excludes
navigation-classed blocks. -/
theorem extract_main_content_spec :
    (∀ (root : Html) (u : Str) (el : Html),
      findSel (Selector.byTag (str "main")) root = some el →
      100 < (clean_text (getTextStrip el)).length →
      extract_main_content root u = clean_text (getTextStrip el)) ∧
    extract_main_content exampleDocMain (str "https://example.com/") = mainText ∧
    extract_main_content exampleDocMain (str "https://example.com/") ≠ sidebarText ∧
    extract_main_content docTie [] = List.replicate 250 'c' ∧
    extract_main_content docNav [] = List.replicate 250 'f' := by
  refine ⟨?_, by decide, by decide, by decide, by decide⟩
  intro root u el hfind hlen
  have hc : tryCandidates root candidates = some (clean_text (getTextStrip el)) := by
    unfold candidates tryCandidates
    rw [hfind]
    exact if_pos hlen
  unfold extract_main_content
  rw [hc]

/-- Witness for C6: the priority clause applied to the concrete document. -/
theorem extract_main_content_spec_wit :
    extract_main_content exampleDocMain (str "w") =
      clean_text (getTextStrip (Html.elem (str "main") [] (.txt mainText .nil) .nil)) :=
  extract_main_content_spec.1 exampleDocMain (str "w")
    (Html.elem (str "main") [] (.txt mainText .nil) .nil) (by decide) (by decide)

/-! The Fallback Content Synthesizer: generate_fallback_content and its
curated module tables, transcribed from the source literals. -/

structure FallbackModule where
  name : Str
  description : Str
deriving DecidableEq

def discordModules : List FallbackModule :=
  [⟨str "Server Management", str "Create and manage Discord servers, channels, and permissions"⟩,
   ⟨str "User Settings", str "Customize your Discord profile, privacy, and notification settings"⟩,
   ⟨str "Voice & Video", str "Use voice channels, video calls, and screen sharing features"⟩,
   ⟨str "Text Messaging", str "Send messages, use emojis, and manage conversations"⟩,
   ⟨str "Bots & Integrations", str "Add bots and integrate third-party services with Discord"⟩]

def instagramModules : List FallbackModule :=
  [⟨str "Account Management", str "Manage your Instagram profile, privacy settings, and account security"⟩,
   ⟨str "Content Creation", str "Create and share posts, stories, reels, and IGTV videos"⟩,
   ⟨str "Social Features", str "Follow users, like posts, comment, and use direct messaging"⟩,
   ⟨str "Business Tools", str "Instagram for Business features, analytics, and advertising"⟩,
   ⟨str "Safety & Privacy", str "Block users, report content, and manage privacy settings"⟩]

def neoModules : List FallbackModule :=
  [⟨str "Workspace Management", str "Create and organize your Neo workspace and projects"⟩,
   ⟨str "Collaboration Tools", str "Share files, collaborate with team members, and manage permissions"⟩,
   ⟨str "File Organization", str "Upload, organize, and manage files and folders"⟩,
   ⟨str "Integration Features", str "Connect with external tools and services"⟩,
   ⟨str "Account Settings", str "Manage your Neo account, billing, and preferences"⟩]

def githubModules : List FallbackModule :=
  [⟨str "Repository Management", str "Create, clone, and manage Git repositories"⟩,
   ⟨str "Code Collaboration", str "Pull requests, code reviews, and branch management"⟩,
   ⟨str "Issue Tracking", str "Create and manage issues, bugs, and feature requests"⟩,
   ⟨str "Actions & CI/CD", str "Automated workflows and continuous integration"⟩,
   ⟨str "Project Management", str "Project boards, milestones, and team collaboration"⟩]

def helpPathModules : List FallbackModule :=
  [⟨str "Getting Started", str "Basic setup and initial configuration guide"⟩,
   ⟨str "Account Management", str "User account creation, settings, and profile management"⟩,
   ⟨str "Features Overview", str "Core features and functionality explanation"⟩,
   ⟨str "Troubleshooting", str "Common issues and their solutions"⟩,
   ⟨str "Contact Support", str "How to reach customer support and get assistance"⟩]

def supportPathModules : List FallbackModule :=
  [⟨str "Technical Support", str "Technical issues, bugs, and system problems"⟩,
   ⟨str "Billing & Payments", str "Payment issues, billing questions, and subscription management"⟩,
   ⟨str "Account Recovery", str "Password reset, account access, and security issues"⟩,
   ⟨str "Feature Requests", str "Suggest new features and improvements"⟩,
   ⟨str "Documentation", str "User guides, tutorials, and reference materials"⟩]

def docsPathModules : List FallbackModule :=
  [⟨str "API Documentation", str "Complete API reference and integration guides"⟩,
   ⟨str "Developer Tools", str "SDKs, libraries, and development resources"⟩,
   ⟨str "Getting Started Guide", str "Quick start tutorial and basic setup"⟩,
   ⟨str "Advanced Features", str "Advanced functionality and configuration options"⟩,
   ⟨str "Examples & Tutorials", str "Code examples and step-by-step tutorials"⟩]

def genericHelpModules : List FallbackModule :=
  [⟨str "User Guide", str "Comprehensive user documentation and guides"⟩,
   ⟨str "FAQ", str "Frequently asked questions and common solutions"⟩,
   ⟨str "Getting Started", str "Initial setup and basic usage instructions"⟩,
   ⟨str "Advanced Features", str "Advanced functionality and configuration"⟩,
   ⟨str "Contact Support", str "Customer support and assistance options"⟩]

/-- The ultimate generic set, parameterised only by the domain name. -/
def ultimateModules (domain : Str) : List FallbackModule :=
  [⟨str "Platform Overview",
    str "General information about " ++ domain ++ str " platform and services"⟩,
   ⟨str "User Account", str "Account management, settings, and profile configuration"⟩,
   ⟨str "Core Features", str "Main features and functionality of the platform"⟩,
   ⟨str "Settings & Preferences", str "Customize your experience and manage preferences"⟩,
   ⟨str "Help & Support", str "Get help, contact support, and find resources"⟩]

/-- The domain_modules dict in source (insertion) order. -/
def domain_modules : List (Str × List FallbackModule) :=
  [(str "discord.com", discordModules), (str "instagram.com", instagramModules),
   (str "neo.space", neoModules), (str "github.com", githubModules)]

/-- The path_modules dict in source (insertion) order. -/
def path_modules : List (Str × List FallbackModule) :=
  [(str "help", helpPathModules), (str "support", supportPathModules),
   (str "docs", docsPathModules)]

/-- crawler.generate_fallback_content (the modules list of the returned dict). -/
def generate_fallback_content (url : Str) : List FallbackModule :=
  let domain := lowerS (urlparse url).netloc
  let path := lowerS (urlparse url).path
  match domain_modules.find? (fun p => subOf p.1 domain) with
  | some p => p.2
  | none =>
    match path_modules.find? (fun p => subOf p.1 path) with
    | some p => p.2
    | none =>
      if ([str "support", str "help", str "docs"]).any (fun k => subOf k domain)
      then genericHelpModules
      else ultimateModules domain

/-- Claim C7: generate_fallback_content always yields exactly five module
placeholders; exactly one branch fires, first match wins, in the order:
curated well-known-domain table, path keyword, hostname keyword, ultimate
generic set parameterised by the domain. -/
theorem generate_fallback_content_spec :
    (∀ url : Str, (generate_fallback_content url).length = 5) ∧
    generate_fallback_content (str "https://discord.com/help") = discordModules ∧
    generate_fallback_content (str "https://example.com/help/start") = helpPathModules ∧
    generate_fallback_content (str "https://support.example.com/") = genericHelpModules ∧
    generate_fallback_content (str "https://example.com/") = ultimateModules (str "example.com") := by
  refine ⟨?_, by decide, by decide, by decide, by decide⟩
  intro url
  simp only [generate_fallback_content]
  split
  · rename_i p hp
    have hm := List.mem_of_find?_eq_some hp
    simp only [domain_modules, List.mem_cons, List.not_mem_nil, or_false] at hm
    rcases hm with rfl | rfl | rfl | rfl <;> rfl
  · rename_i hp
    split
    · rename_i q hq
      have hm := List.mem_of_find?_eq_some hq
      simp only [path_modules, List.mem_cons, List.not_mem_nil, or_false] at hm
      rcases hm with rfl | rfl | rfl <;> rfl
    · rename_i hq
      split
      · rfl
      · rfl

/-! The Strategy Orchestrator. -/

inductive StratResult where
  | ok (text : Str) (soup : Option Html)
  | exn (msg : Str)
deriving DecidableEq

/-- The orchestrator's acceptance test: text truthy and trimmed length
strictly above 50 characters. -/
def acceptedText (t : Str) : Bool := !t.isEmpty && decide (50 < (pyStrip t).length)

def okAccepted : StratResult → Bool
  | .ok t _ => acceptedText t
  | .exn _ => false

/-- crawler.try_multiple_approaches over the ordered outcomes of the six
approaches (basic request, stealth session, advanced stealth, selenium
stealth, firecrawl, alternative URLs): every raised strategy error is
swallowed and the next strategy tried; the first accepted text wins and
stops the loop; exhaustion yields empty text and no document. -/
def try_multiple_approaches : List StratResult → Str × Option Html
  | [] => ([], none)
  | .exn _ :: rest => try_multiple_approaches rest
  | .ok t s :: rest => if acceptedText t then (t, s) else try_multiple_approaches rest

/-- Claim C2: the orchestrator never propagates a strategy exception, accepts
the first strategy whose trimmed text exceeds 50 characters without invoking
any later strategy, returns empty text and no document on exhaustion, and on
the concrete two-failures-then-80-characters scenario returns the third
strategy's output whatever the later strategies would do. -/
theorem try_multiple_approaches_spec :
    (∀ (m : Str) (rest : List StratResult),
      try_multiple_approaches (.exn m :: rest) = try_multiple_approaches rest) ∧
    (∀ (t : Str) (s : Option Html) (rest : List StratResult),
      acceptedText t = true → try_multiple_approaches (.ok t s :: rest) = (t, s)) ∧
    (∀ outs : List StratResult, (∀ o ∈ outs, okAccepted o = false) →
      try_multiple_approaches outs = ([], none)) ∧
    (∀ (m₁ m₂ : Str) (s : Option Html) (rest : List StratResult),
      try_multiple_approaches
          (.exn m₁ :: .exn m₂ :: .ok (List.replicate 80 'a') s :: rest) =
        (List.replicate 80 'a', s)) := by
  refine ⟨fun m rest => rfl, ?_, ?_, ?_⟩
  · intro t s rest h
    simp [try_multiple_approaches, h]
  · intro outs h
    induction outs with
    | nil => rfl
    | cons o rest ih =>
      cases o with
      | exn m =>
        simpa [try_multiple_approaches] using ih (fun o ho => h o (List.mem_cons_of_mem _ ho))
      | ok t s =>
        have ha : acceptedText t = false := h (.ok t s) (List.mem_cons_self _ _)
        simp [try_multiple_approaches, ha]
        exact ih (fun o ho => h o (List.mem_cons_of_mem _ ho))
  · intro m₁ m₂ s rest
    simp only [try_multiple_approaches]
    rw [if_pos (by decide)]

/-- Witness for C2: a concrete exhausted strategy list returns empty text. -/
theorem try_multiple_approaches_spec_wit :
    try_multiple_approaches [.exn (str "boom"), .ok (str "short") none] = ([], none) :=
  try_multiple_approaches_spec.2.2.1 [.exn (str "boom"), .ok (str "short") none] (by decide)

/-! The Guaranteed Extraction Wrapper.  The network is abstracted as an
environment: per URL it either yields the six strategies' outcomes (fed to
the orchestrator) or an unexpected exception escaping the orchestrator,
which the wrapper's except-branch catches. -/

inductive EnvOutcome where
  | strategies (outs : List StratResult)
  | unexpected (msg : Str)

abbrev Env := Str → EnvOutcome

def natStr (n : Nat) : Str := (Nat.repr n).data

/-- The numbered module-rendering loop shared by both wrapper texts
(Python enumerate starting at 1). -/
def renderModulesFrom (i : Nat) : List FallbackModule → Str
  | [] => []
  | m :: rest =>
    natStr i ++ str ". " ++ m.name ++ str "\n" ++
      str "   Description: " ++ m.description ++ str "\n\n" ++
      renderModulesFrom (i + 1) rest

/-- The fallback text built when the orchestrator's result is empty or fails
the quality filter. -/
def fallbackText (url : Str) : Str :=
  str "FALLBACK CONTENT FOR: " ++ url ++ str "\n\n" ++
  str "Based on the URL structure and domain, here are the likely modules:\n\n" ++
  renderModulesFrom 1 (generate_fallback_content url) ++
  str "\nNote: This content was generated as a fallback when direct extraction failed.\n" ++
  str "The site may have anti-bot protection or require JavaScript rendering.\n" ++
  str "Consider using Firecrawl API for better results with restricted sites.\n"

/-- The error text built by the wrapper's except-branch. -/
def extractionFailedText (url err : Str) : Str :=
  str "EXTRACTION FAILED FOR: " ++ url ++ str "\n\n" ++
  str "Error: " ++ err ++ str "\n\n" ++
  str "Generated fallback modules based on URL analysis:\n\n" ++
  renderModulesFrom 1 (generate_fallback_content url)

/-- crawler.extract_content_with_guaranteed_fallback: meaningful orchestrator
text is returned verbatim with its document; otherwise the fallback text is
returned (still with the orchestrator's document); an exception escaping the
orchestrator is caught and turned into the error text with no document. -/
def extract_content_with_guaranteed_fallback (env : Env) (url : Str) : Str × Option Html :=
  match env url with
  | .unexpected e => (extractionFailedText url e, none)
  | .strategies outs =>
    let r := try_multiple_approaches outs
    if r.1 ≠ [] ∧ is_content_meaningful r.1 = true then r
    else (fallbackText url, r.2)

theorem append_ne_nil_left {α : Type} {l : List α} (h : l ≠ []) (r : List α) : l ++ r ≠ [] := by
  cases l with
  | nil => exact absurd rfl h
  | cons x xs => simp

theorem extract_guaranteed_text_ne_nil (env : Env) (url : Str) :
    (extract_content_with_guaranteed_fallback env url).1 ≠ [] := by
  unfold extract_content_with_guaranteed_fallback
  cases h : env url with
  | unexpected e =>
    exact List.cons_ne_nil _ _
  | strategies outs =>
    simp only []
    split_ifs with hc
    · exact hc.1
    · exact List.cons_ne_nil _ _

/-- Claim C1: the guaranteed extraction wrapper is a total function whose
text is never empty; when the orchestrator's text is non-empty and passes
the quality filter it is returned verbatim together with the orchestrator's
document; otherwise the text carries the FALLBACK CONTENT FOR marker, and
on the caught-exception path it starts with EXTRACTION FAILED FOR. -/
theorem extract_guaranteed_spec :
    (∀ (env : Env) (url : Str), (extract_content_with_guaranteed_fallback env url).1 ≠ []) ∧
    (∀ (env : Env) (url : Str) (outs : List StratResult), env url = .strategies outs →
      ((try_multiple_approaches outs).1 ≠ [] ∧
          is_content_meaningful (try_multiple_approaches outs).1 = true →
        extract_content_with_guaranteed_fallback env url = try_multiple_approaches outs) ∧
      (¬((try_multiple_approaches outs).1 ≠ [] ∧
          is_content_meaningful (try_multiple_approaches outs).1 = true) →
        subOf (str "FALLBACK CONTENT FOR: " ++ url)
          (extract_content_with_guaranteed_fallback env url).1 = true)) ∧
    (∀ (env : Env) (url e : Str), env url = .unexpected e →
      startsWithS (str "EXTRACTION FAILED FOR: " ++ url)
        (extract_content_with_guaranteed_fallback env url).1 = true) := by
  refine ⟨extract_guaranteed_text_ne_nil, ?_, ?_⟩
  · intro env url outs henv
    constructor
    · intro hok
      unfold extract_content_with_guaranteed_fallback
      rw [henv]
      simp only []
      rw [if_pos hok]
    · intro hbad
      unfold extract_content_with_guaranteed_fallback
      rw [henv]
      simp only []
      rw [if_neg hbad]
      have hform : fallbackText url =
          (str "FALLBACK CONTENT FOR: " ++ url) ++
            (str "\n\n" ++
             str "Based on the URL structure and domain, here are the likely modules:\n\n" ++
             renderModulesFrom 1 (generate_fallback_content url) ++
             str "\nNote: This content was generated as a fallback when direct extraction failed.\n" ++
             str "The site may have anti-bot protection or require JavaScript rendering.\n" ++
             str "Consider using Firecrawl API for better results with restricted sites.\n") := by
        simp [fallbackText, List.append_assoc]
      show subOf (str "FALLBACK CONTENT FOR: " ++ url) (fallbackText url) = true
      rw [hform]
      simpa using subOf_of_parts (str "FALLBACK CONTENT FOR: " ++ url) [] _
  · intro env url e henv
    unfold extract_content_with_guaranteed_fallback
    rw [henv]
    have hform : extractionFailedText url e =
        (str "EXTRACTION FAILED FOR: " ++ url) ++
          (str "\n\n" ++ str "Error: " ++ e ++ str "\n\n" ++
           str "Generated fallback modules based on URL analysis:\n\n" ++
           renderModulesFrom 1 (generate_fallback_content url)) := by
      simp [extractionFailedText, List.append_assoc]
    show startsWithS (str "EXTRACTION FAILED FOR: " ++ url) (extractionFailedText url e) = true
    rw [hform]
    exact startsWithS_of_append _ _

/-- An environment in which all six strategies raise, for every URL. -/
def envAllFail : Env :=
  fun _ => .strategies (List.replicate 6 (.exn (str "strategy failed")))

/-- Witness for C1: on an all-strategies-fail environment the wrapper text is
fallback-marked at a concrete URL. -/
theorem extract_guaranteed_spec_wit :
    subOf (str "FALLBACK CONTENT FOR: " ++ str "https://x.com")
      (extract_content_with_guaranteed_fallback envAllFail (str "https://x.com")).1 = true :=
  (extract_guaranteed_spec.2.1 envAllFail (str "https://x.com")
      (List.replicate 6 (.exn (str "strategy failed"))) rfl).2 (by decide)

/-- Occurrence of a list of needles in a text, in order and without overlap:
each needle occurs after the end of the previous one. -/
def inOrderOcc (t : Str) : List Str → Prop
  | [] => True
  | s :: rest => ∃ a b, t = a ++ s ++ b ∧ inOrderOcc b rest

theorem inOrderOcc_append_left (j t : Str) (l : List Str) (h : inOrderOcc t l) :
    inOrderOcc (j ++ t) l := by
  cases l with
  | nil => trivial
  | cons s rest =>
    rcases h with ⟨a, b, rfl, hrest⟩
    exact ⟨j ++ a, b, by simp, hrest⟩

/-- The rendering loop emits every module name, in list order. -/
theorem renderModulesFrom_names (ms : List FallbackModule) : ∀ (i : Nat) (z : Str),
    inOrderOcc (renderModulesFrom i ms ++ z) (ms.map FallbackModule.name) := by
  induction ms with
  | nil => intro i z; trivial
  | cons m rest ih =>
    intro i z
    refine ⟨natStr i ++ str ". ",
      str "\n" ++ str "   Description: " ++ m.description ++ str "\n\n" ++
        renderModulesFrom (i + 1) rest ++ z, ?_, ?_⟩
    · simp [renderModulesFrom, List.append_assoc]
    · simpa [List.append_assoc] using
        inOrderOcc_append_left
          (str "\n" ++ str "   Description: " ++ m.description ++ str "\n\n")
          (renderModulesFrom (i + 1) rest ++ z) _ (ih (i + 1) z)

/-- C8 counterexample: when every strategy raises, the orchestrator swallows
the exceptions and returns empty text, so the wrapper takes the FALLBACK
branch: at a concrete URL the returned text does not start with the
EXTRACTION FAILED FOR marker the claim requires. -/
theorem allfail_marker_cex :
    startsWithS (str "EXTRACTION FAILED FOR: ")
      (extract_content_with_guaranteed_fallback envAllFail
        (str "https://discord.com/help")).1 = false := by
  decide

/-- Claim C8 (amended): for a URL whose every acquisition strategy fails with
an exception, the wrapper text is the fallback text: it begins with
FALLBACK CONTENT FOR: followed by the URL (not EXTRACTION FAILED FOR:),
and it enumerates exactly the domain's or path's fallback module list in
order. -/
theorem allfail_fallback_spec (url : Str) :
    (extract_content_with_guaranteed_fallback envAllFail url).1 = fallbackText url ∧
    startsWithS (str "FALLBACK CONTENT FOR: " ++ url)
      (extract_content_with_guaranteed_fallback envAllFail url).1 = true ∧
    inOrderOcc (extract_content_with_guaranteed_fallback envAllFail url).1
      ((generate_fallback_content url).map FallbackModule.name) := by
  have h1 : extract_content_with_guaranteed_fallback envAllFail url =
      (fallbackText url, none) := rfl
  refine ⟨by rw [h1], ?_, ?_⟩
  · rw [h1]
    have hform : fallbackText url =
        (str "FALLBACK CONTENT FOR: " ++ url) ++
          (str "\n\n" ++
           str "Based on the URL structure and domain, here are the likely modules:\n\n" ++
           renderModulesFrom 1 (generate_fallback_content url) ++
           str "\nNote: This content was generated as a fallback when direct extraction failed.\n" ++
           str "The site may have anti-bot protection or require JavaScript rendering.\n" ++
           str "Consider using Firecrawl API for better results with restricted sites.\n") := by
      simp [fallbackText, List.append_assoc]
    show startsWithS (str "FALLBACK CONTENT FOR: " ++ url) (fallbackText url) = true
    rw [hform]
    exact startsWithS_of_append _ _
  · rw [h1]
    show inOrderOcc (fallbackText url) ((generate_fallback_content url).map FallbackModule.name)
    have hform : fallbackText url =
        (str "FALLBACK CONTENT FOR: " ++ url ++ str "\n\n" ++
          str "Based on the URL structure and domain, here are the likely modules:\n\n") ++
          (renderModulesFrom 1 (generate_fallback_content url) ++
            (str "\nNote: This content was generated as a fallback when direct extraction failed.\n" ++
             str "The site may have anti-bot protection or require JavaScript rendering.\n" ++
             str "Consider using Firecrawl API for better results with restricted sites.\n")) := by
      simp [fallbackText, List.append_assoc]
    rw [hform]
    exact inOrderOcc_append_left _ _ _ (renderModulesFrom_names _ 1 _)

/-! The Recursive Same-Origin Crawler. -/

/-- Crawl state: the visited set and the Document Map (association list in
insertion order, Python dict semantics), plus two observation logs of what
the crawler did: trace records each extraction call as (url, depth), newest
first, and dbg records each debug-artifact write. -/
structure CrawlSt where
  visited : List Str
  docs : List (Str × Str)
  trace : List (Str × Nat)
  dbg : List Str
deriving DecidableEq

def initSt : CrawlSt := ⟨[], [], [], []⟩

/-- Python dict assignment on an insertion-ordered association list. -/
def dictInsert (d : List (Str × Str)) (k v : Str) : List (Str × Str) :=
  if k ∈ d.map Prod.fst then d.map (fun kv => if kv.1 = k then (k, v) else kv)
  else d ++ [(k, v)]

def lookupKey : List (Str × Str) → Str → Option Str
  | [], _ => none
  | kv :: rest, k => if kv.1 = k then some kv.2 else lookupKey rest k

/-- soup.find_all("a", href=True): every anchor's href value, document order. -/
def anchorHrefs : Html → List Str
  | .nil => []
  | .txt _ nx => anchorHrefs nx
  | .elem t a ch nx =>
    (if t = str "a" then
      match getAttr a (str "href") with
      | some h => [h]
      | none => []
     else []) ++ anchorHrefs ch ++ anchorHrefs nx

/-- The record step of crawler.crawl: mark visited, store the extracted text
in the Document Map, log the extraction call, and (if a document tree exists
while the text is empty) log a debug-artifact write. -/
def recordVisit (env : Env) (url : Str) (depth : Nat) (st : CrawlSt) : CrawlSt :=
  let r := extract_content_with_guaranteed_fallback env url
  ⟨url :: st.visited,
   dictInsert st.docs url r.1,
   (url, depth) :: st.trace,
   if r.2.isSome ∧ r.1 = [] then url :: st.dbg else st.dbg⟩

/-- The link-following gate of crawler.crawl, checked after a document tree
was obtained: depth budget left, non-empty text, neither fallback marker
present, and the text quality filter passes. -/
def linkGate (maxDepth depth : Nat) (text : Str) : Bool :=
  decide (depth < maxDepth) && !text.isEmpty &&
    !subOf (str "FALLBACK CONTENT") text && !subOf (str "EXTRACTION FAILED") text &&
    is_content_meaningful text

/-- The link loop of crawler.crawl: walk anchors in document order, stop
after three recursive calls, recurse only on valid, same-host, unvisited,
non-skip links (rec is the crawl at the next depth). -/
def crawlLinksGo (rec : Str → CrawlSt → CrawlSt) (url : Str) :
    List Str → Nat → CrawlSt → CrawlSt
  | [], _, st => st
  | a :: rest, n, st =>
    if 3 ≤ n then st
    else
      if is_valid_url (urljoin url a) = true ∧
          (urlparse (urljoin url a)).netloc = (urlparse url).netloc ∧
          urljoin url a ∉ st.visited ∧ should_skip_url (urljoin url a) = false
      then crawlLinksGo rec url rest (n + 1) (rec (urljoin url a) st)
      else crawlLinksGo rec url rest n st

/-- crawler.crawl, the inner recursive function of crawl_and_extract.  The
fuel argument only bounds recursion depth; crawl_and_extract passes
max_depth + 1, which the depth guard never lets run out. -/
def crawl (env : Env) (maxDepth : Nat) : Nat → Nat → Str → CrawlSt → CrawlSt
  | 0 => fun _ _ st => st
  | fuel + 1 => fun depth url st =>
    if url ∈ st.visited ∨ maxDepth < depth ∨ should_skip_url url = true then st
    else
      match (extract_content_with_guaranteed_fallback env url).2 with
      | none => recordVisit env url depth st
      | some doc =>
        if linkGate maxDepth depth (extract_content_with_guaranteed_fallback env url).1
        then crawlLinksGo (crawl env maxDepth fuel (depth + 1)) url (anchorHrefs doc) 0
               (recordVisit env url depth st)
        else recordVisit env url depth st

/-- The literal error text recorded for syntactically invalid seeds. -/
def invalidUrlText (u : Str) : Str :=
  str "ERROR: Invalid URL format - " ++ u ++ str "\n\nPlease check the URL and try again."

/-- crawler.crawl_and_extract: valid seeds enter the crawl at depth zero,
invalid seeds get the literal error entry immediately. -/
def crawl_and_extract (env : Env) (urls : List Str) (maxDepth : Nat) : CrawlSt :=
  urls.foldl
    (fun st url =>
      if is_valid_url url = true then crawl env maxDepth (maxDepth + 1) 0 url st
      else { st with docs := dictInsert st.docs url (invalidUrlText url) })
    initSt

/-- The static properties the link loop requires of a followed link. -/
def staticLinkOk (url link : Str) : Bool :=
  is_valid_url link && decide ((urlparse link).netloc = (urlparse url).netloc) &&
    !should_skip_url link

/-- All links of url's page that could ever be followed, in document order. -/
def pageLinkCandidates (env : Env) (url : Str) : List Str :=
  match (extract_content_with_guaranteed_fallback env url).2 with
  | none => []
  | some doc => ((anchorHrefs doc).map (urljoin url)).filter (staticLinkOk url)

def wrapperText (env : Env) (u : Str) : Str :=
  (extract_content_with_guaranteed_fallback env u).1

/-- The state invariant every crawl step preserves: the trace mirrors the
visited list; visited URLs are distinct, valid, non-skip, and recorded;
Document Map keys are distinct, all values non-empty; non-visited keys are
exactly the literal invalid-seed error entries. -/
def CrawlInv (st : CrawlSt) : Prop :=
  st.trace.map Prod.fst = st.visited ∧
  st.visited.Nodup ∧
  (∀ u ∈ st.visited, is_valid_url u = true ∧ should_skip_url u = false) ∧
  (st.docs.map Prod.fst).Nodup ∧
  (∀ u ∈ st.visited, u ∈ st.docs.map Prod.fst) ∧
  (∀ kv ∈ st.docs, kv.2 ≠ ([] : Str)) ∧
  (∀ kv ∈ st.docs, kv.1 ∉ st.visited →
    is_valid_url kv.1 = false ∧ kv.2 = invalidUrlText kv.1)

/-- What one crawl call adds to a state: a block of freshly visited pages,
each extracted exactly once, all below the call in depth, at most one at the
call's own depth (the call's URL itself), at most three direct children, and
each direct child drawn from the page's qualifying links. -/
def CrawlConc (env : Env) (depth : Nat) (url : Str) (st st' : CrawlSt) : Prop :=
  ∃ tr : List (Str × Nat),
    st'.trace = tr ++ st.trace ∧
    st'.visited = tr.map Prod.fst ++ st.visited ∧
    st'.docs = st.docs ++
      ((tr.map Prod.fst).reverse.map (fun u => (u, wrapperText env u))) ∧
    st'.dbg = st.dbg ∧
    (tr.map Prod.fst).Nodup ∧
    (∀ p ∈ tr, depth ≤ p.2 ∧ p.1 ∉ st.visited ∧ is_valid_url p.1 = true ∧
      should_skip_url p.1 = false ∧
      (p.2 = depth → p.1 = url) ∧
      (p.2 = depth + 1 → p.1 ∈ pageLinkCandidates env url)) ∧
    (tr.filter (fun p => decide (p.2 = depth + 1))).length ≤ 3

/-- What the link loop adds, relative to its remaining anchors and counter. -/
def LoopConc (env : Env) (depth : Nat) (url : Str) (anchors : List Str) (n : Nat)
    (st st' : CrawlSt) : Prop :=
  ∃ tr : List (Str × Nat),
    st'.trace = tr ++ st.trace ∧
    st'.visited = tr.map Prod.fst ++ st.visited ∧
    st'.docs = st.docs ++
      ((tr.map Prod.fst).reverse.map (fun u => (u, wrapperText env u))) ∧
    st'.dbg = st.dbg ∧
    (tr.map Prod.fst).Nodup ∧
    (∀ p ∈ tr, depth + 1 ≤ p.2 ∧ p.1 ∉ st.visited ∧ is_valid_url p.1 = true ∧
      should_skip_url p.1 = false ∧
      (p.2 = depth + 1 →
        p.1 ∈ (anchors.map (urljoin url)).filter (staticLinkOk url))) ∧
    (tr.filter (fun p => decide (p.2 = depth + 1))).length ≤ 3 - n

theorem crawlConc_refl (env : Env) (depth : Nat) (url : Str) (st : CrawlSt) :
    CrawlConc env depth url st st := by
  refine ⟨[], by simp, by simp, by simp, rfl, by simp, by simp, by simp⟩

theorem mem_keys_iff (d : List (Str × Str)) (k : Str) :
    k ∈ d.map Prod.fst ↔ ∃ v, (k, v) ∈ d := by
  constructor
  · intro h
    rcases List.mem_map.mp h with ⟨⟨a, b⟩, hab, rfl⟩
    exact ⟨b, hab⟩
  · rintro ⟨v, hv⟩
    exact List.mem_map.mpr ⟨(k, v), hv, rfl⟩

theorem dictInsert_not_mem (d : List (Str × Str)) (k v : Str)
    (h : k ∉ d.map Prod.fst) : dictInsert d k v = d ++ [(k, v)] := by
  unfold dictInsert
  rw [if_neg h]

theorem recordVisit_eq (env : Env) (url : Str) (depth : Nat) (st : CrawlSt) :
    recordVisit env url depth st =
      ⟨url :: st.visited, dictInsert st.docs url (wrapperText env url),
       (url, depth) :: st.trace, st.dbg⟩ := by
  unfold recordVisit wrapperText
  have h := extract_guaranteed_text_ne_nil env url
  simp [h]

/-- A fresh, valid URL cannot already be a Document Map key. -/
theorem not_mem_keys_of_fresh (st : CrawlSt) (url : Str) (hInv : CrawlInv st)
    (hv : is_valid_url url = true) (hnew : url ∉ st.visited) :
    url ∉ st.docs.map Prod.fst := by
  intro hmem
  rcases (mem_keys_iff _ _).mp hmem with ⟨v, hv2⟩
  have := hInv.2.2.2.2.2.2 (url, v) hv2 hnew
  rw [this.1] at hv
  cases hv

theorem crawlInv_record (env : Env) (url : Str) (depth : Nat) (st : CrawlSt)
    (hInv : CrawlInv st) (hv : is_valid_url url = true)
    (hs : should_skip_url url = false) (hnew : url ∉ st.visited) :
    CrawlInv (recordVisit env url depth st) := by
  obtain ⟨h1, h2, h3, h4, h5, h6, h7⟩ := hInv
  have hfresh : url ∉ st.docs.map Prod.fst :=
    not_mem_keys_of_fresh st url ⟨h1, h2, h3, h4, h5, h6, h7⟩ hv hnew
  rw [recordVisit_eq, dictInsert_not_mem _ _ _ hfresh]
  refine ⟨?_, ?_, ?_, ?_, ?_, ?_, ?_⟩
  · simp [h1]
  · exact List.nodup_cons.mpr ⟨hnew, h2⟩
  · intro u hu
    rcases List.mem_cons.mp hu with rfl | hu
    · exact ⟨hv, hs⟩
    · exact h3 u hu
  · rw [List.map_append]
    refine List.Nodup.append h4 (List.nodup_singleton url) ?_
    intro a ha hb
    rcases List.mem_singleton.mp hb with rfl
    exact hfresh ha
  · intro u hu
    rcases List.mem_cons.mp hu with rfl | hu
    · simp
    · simp only [List.map_append]
      exact List.mem_append_left _ (h5 u hu)
  · intro kv hkv
    rcases List.mem_append.mp hkv with hkv | hkv
    · exact h6 kv hkv
    · rcases List.mem_singleton.mp hkv with rfl
      exact extract_guaranteed_text_ne_nil env url
  · intro kv hkv hnv
    rcases List.mem_append.mp hkv with hkv | hkv
    · exact h7 kv hkv (fun hmem => hnv (List.mem_cons_of_mem _ hmem))
    · rcases List.mem_singleton.mp hkv with rfl
      exact absurd (List.mem_cons_self _ _) hnv

/-- A list of pairs with distinct first components, all of whose entries at
one depth share one URL, has at most one entry at that depth. -/
theorem filter_depth_le_one (tr : List (Str × Nat)) (X : Nat) (c : Str)
    (hnd : (tr.map Prod.fst).Nodup) (hall : ∀ p ∈ tr, p.2 = X → p.1 = c) :
    (tr.filter (fun p => decide (p.2 = X))).length ≤ 1 := by
  have hsub : (tr.filter (fun p => decide (p.2 = X))).Sublist tr := List.filter_sublist _
  have hnd2 : ((tr.filter (fun p => decide (p.2 = X))).map Prod.fst).Nodup :=
    (hsub.map Prod.fst).nodup hnd
  have hallf : ∀ p ∈ tr.filter (fun p => decide (p.2 = X)), p.1 = c := by
    intro p hp
    have := List.mem_filter.mp hp
    exact hall p this.1 (by simpa using this.2)
  cases hfl : tr.filter (fun p => decide (p.2 = X)) with
  | nil => simp
  | cons x rest =>
    cases rest with
    | nil => simp
    | cons y rest2 =>
      exfalso
      rw [hfl] at hnd2 hallf
      have hx : x.1 = c := hallf x (List.mem_cons_self _ _)
      have hy : y.1 = c := hallf y (List.mem_cons_of_mem _ (List.mem_cons_self _ _))
      simp only [List.map_cons, List.nodup_cons, List.mem_cons] at hnd2
      exact hnd2.1 (Or.inl (hx.trans hy.symm))

theorem crawlLinksGo_nil (rec : Str → CrawlSt → CrawlSt) (url : Str) (n : Nat) (st : CrawlSt) :
    crawlLinksGo rec url [] n st = st := rfl

theorem crawlLinksGo_cons (rec : Str → CrawlSt → CrawlSt) (url a : Str)
    (rest : List Str) (n : Nat) (st : CrawlSt) :
    crawlLinksGo rec url (a :: rest) n st =
      if 3 ≤ n then st
      else if is_valid_url (urljoin url a) = true ∧
          (urlparse (urljoin url a)).netloc = (urlparse url).netloc ∧
          urljoin url a ∉ st.visited ∧ should_skip_url (urljoin url a) = false
        then crawlLinksGo rec url rest (n + 1) (rec (urljoin url a) st)
        else crawlLinksGo rec url rest n st := rfl

theorem crawl_succ (env : Env) (maxDepth fuel depth : Nat) (url : Str) (st : CrawlSt) :
    crawl env maxDepth (fuel + 1) depth url st =
      if url ∈ st.visited ∨ maxDepth < depth ∨ should_skip_url url = true then st
      else
        match (extract_content_with_guaranteed_fallback env url).2 with
        | none => recordVisit env url depth st
        | some doc =>
          if linkGate maxDepth depth (extract_content_with_guaranteed_fallback env url).1
          then crawlLinksGo (crawl env maxDepth fuel (depth + 1)) url (anchorHrefs doc) 0
                 (recordVisit env url depth st)
          else recordVisit env url depth st := rfl

theorem mem_filter_map_cons {x a : Str} {rest : List Str} (f : Str → Str) (g : Str → Bool)
    (h : x ∈ (rest.map f).filter g) : x ∈ ((a :: rest).map f).filter g := by
  rcases List.mem_filter.mp h with ⟨h1, h2⟩
  exact List.mem_filter.mpr ⟨List.mem_cons_of_mem (f a) h1, h2⟩

theorem crawlLinksGo_master (env : Env) (maxDepth fuel depth : Nat) (url : Str)
    (ih : ∀ (u : Str) (s : CrawlSt), CrawlInv s → is_valid_url u = true →
      CrawlInv (crawl env maxDepth fuel (depth + 1) u s) ∧
      CrawlConc env (depth + 1) u s (crawl env maxDepth fuel (depth + 1) u s)) :
    ∀ (anchors : List Str) (n : Nat) (st : CrawlSt), CrawlInv st →
      CrawlInv (crawlLinksGo (crawl env maxDepth fuel (depth + 1)) url anchors n st) ∧
      LoopConc env depth url anchors n st
        (crawlLinksGo (crawl env maxDepth fuel (depth + 1)) url anchors n st) := by
  intro anchors
  induction anchors with
  | nil =>
    intro n st hInv
    rw [crawlLinksGo_nil]
    exact ⟨hInv, ⟨[], by simp, by simp, by simp, rfl, by simp, by simp, by simp⟩⟩
  | cons a rest ihl =>
    intro n st hInv
    rw [crawlLinksGo_cons]
    by_cases h3 : 3 ≤ n
    · rw [if_pos h3]
      exact ⟨hInv, ⟨[], by simp, by simp, by simp, rfl, by simp, by simp, by simp⟩⟩
    · rw [if_neg h3]
      by_cases hok : is_valid_url (urljoin url a) = true ∧
          (urlparse (urljoin url a)).netloc = (urlparse url).netloc ∧
          urljoin url a ∉ st.visited ∧ should_skip_url (urljoin url a) = false
      · rw [if_pos hok]
        obtain ⟨hInv1, hConc1⟩ := ih (urljoin url a) st hInv hok.1
        obtain ⟨hInv2, hLoop2⟩ :=
          ihl (n + 1) (crawl env maxDepth fuel (depth + 1) (urljoin url a) st) hInv1
        obtain ⟨tr1, ht1, hv1, hd1, hb1, hn1, he1, hc1⟩ := hConc1
        obtain ⟨tr2, ht2, hv2, hd2, hb2, hn2, he2, hc2⟩ := hLoop2
        refine ⟨hInv2, ⟨tr2 ++ tr1, ?_, ?_, ?_, ?_, ?_, ?_, ?_⟩⟩
        · rw [ht2, ht1, List.append_assoc]
        · rw [hv2, hv1, List.map_append, List.append_assoc]
        · rw [hd2, hd1, List.map_append, List.reverse_append, List.map_append,
              List.append_assoc]
        · rw [hb2, hb1]
        · rw [List.map_append]
          refine List.Nodup.append hn2 hn1 ?_
          intro x hx2 hx1
          rcases List.mem_map.mp hx2 with ⟨p, hp, rfl⟩
          have hnb := (he2 p hp).2.1
          rw [hv1] at hnb
          exact hnb (List.mem_append_left _ hx1)
        · intro p hp
          rcases List.mem_append.mp hp with hp2 | hp1
          · obtain ⟨hA, hB, hC, hD, hE⟩ := he2 p hp2
            refine ⟨hA, ?_, hC, hD, ?_⟩
            · rw [hv1] at hB
              exact fun hmem => hB (List.mem_append_right _ hmem)
            · intro hdep
              exact mem_filter_map_cons _ _ (hE hdep)
          · obtain ⟨hA, hB, hC, hD, hE, _⟩ := he1 p hp1
            refine ⟨hA, hB, hC, hD, ?_⟩
            intro hdep
            rw [hE hdep]
            refine List.mem_filter.mpr ⟨List.mem_cons_self _ _, ?_⟩
            simp [staticLinkOk, hok.1, hok.2.1, hok.2.2.2]
        · rw [List.filter_append, List.length_append]
          have hle1 : (tr1.filter (fun p => decide (p.2 = depth + 1))).length ≤ 1 :=
            filter_depth_le_one tr1 (depth + 1) (urljoin url a) hn1
              (fun p hp hd => (he1 p hp).2.2.2.2.1 hd)
          omega
      · rw [if_neg hok]
        obtain ⟨hInv2, hLoop2⟩ := ihl n st hInv
        obtain ⟨tr2, ht2, hv2, hd2, hb2, hn2, he2, hc2⟩ := hLoop2
        refine ⟨hInv2, ⟨tr2, ht2, hv2, hd2, hb2, hn2, ?_, hc2⟩⟩
        intro p hp
        obtain ⟨hA, hB, hC, hD, hE⟩ := he2 p hp
        exact ⟨hA, hB, hC, hD, fun hdep => mem_filter_map_cons _ _ (hE hdep)⟩

theorem crawl_master (env : Env) (maxDepth : Nat) :
    ∀ (fuel depth : Nat) (url : Str) (st : CrawlSt), CrawlInv st →
      is_valid_url url = true →
      CrawlInv (crawl env maxDepth fuel depth url st) ∧
      CrawlConc env depth url st (crawl env maxDepth fuel depth url st) ∧
      (url ∉ st.visited → depth ≤ maxDepth → should_skip_url url = false → 0 < fuel →
        url ∈ (crawl env maxDepth fuel depth url st).visited) := by
  intro fuel
  induction fuel with
  | zero =>
    intro depth url st hInv hv
    exact ⟨hInv, crawlConc_refl env depth url st,
      fun _ _ _ h0 => absurd h0 (lt_irrefl 0)⟩
  | succ fuel ih =>
    intro depth url st hInv hv
    rw [crawl_succ]
    by_cases hguard : url ∈ st.visited ∨ maxDepth < depth ∨ should_skip_url url = true
    · rw [if_pos hguard]
      refine ⟨hInv, crawlConc_refl env depth url st, ?_⟩
      intro hnew hdep hskip _
      exfalso
      rcases hguard with h | h | h
      · exact hnew h
      · omega
      · rw [hskip] at h; cases h
    · rw [if_neg hguard]
      push_neg at hguard
      obtain ⟨hnew, hdep, hskip⟩ := hguard
      have hskip' : should_skip_url url = false := by
        cases h : should_skip_url url
        · rfl
        · exact absurd h hskip
      have hfresh : url ∉ st.docs.map Prod.fst := not_mem_keys_of_fresh st url hInv hv hnew
      have hInv1 : CrawlInv (recordVisit env url depth st) :=
        crawlInv_record env url depth st hInv hv hskip' hnew
      have hrecConc : CrawlConc env depth url st (recordVisit env url depth st) := by
        refine ⟨[(url, depth)], ?_, ?_, ?_, ?_, ?_, ?_, ?_⟩
        · simp [recordVisit_eq]
        · simp [recordVisit_eq]
        · simp [recordVisit_eq, dictInsert_not_mem _ _ _ hfresh]
        · simp [recordVisit_eq]
        · simp
        · intro p hp
          rcases List.mem_singleton.mp hp with rfl
          exact ⟨le_refl _, hnew, hv, hskip', fun _ => rfl, fun h => absurd h (by omega)⟩
        · simp
      cases hsoup : (extract_content_with_guaranteed_fallback env url).2 with
      | none =>
        refine ⟨hInv1, hrecConc, ?_⟩
        intro _ _ _ _
        rw [recordVisit_eq]
        exact List.mem_cons_self _ _
      | some doc =>
        by_cases hgate :
            linkGate maxDepth depth (extract_content_with_guaranteed_fallback env url).1 = true
        · simp only [hgate, if_true]
          obtain ⟨hInv2, hLoop⟩ := crawlLinksGo_master env maxDepth fuel depth url
            (fun u s hI hval => ⟨(ih (depth + 1) u s hI hval).1, (ih (depth + 1) u s hI hval).2.1⟩)
            (anchorHrefs doc) 0 (recordVisit env url depth st) hInv1
          obtain ⟨tr2, ht2, hv2, hd2, hb2, hn2, he2, hc2⟩ := hLoop
          have hrec := recordVisit_eq env url depth st
          refine ⟨hInv2, ⟨tr2 ++ [(url, depth)], ?_, ?_, ?_, ?_, ?_, ?_, ?_⟩, ?_⟩
          · rw [ht2, hrec]
            simp [List.append_assoc]
          · rw [hv2, hrec]
            simp [List.append_assoc]
          · rw [hd2, hrec]
            simp [dictInsert_not_mem _ _ _ hfresh, List.map_append, List.reverse_append,
              List.append_assoc, wrapperText]
          · rw [hb2, hrec]
          · rw [List.map_append]
            refine List.Nodup.append hn2 (by simp) ?_
            intro x hx2 hx1
            rcases List.mem_map.mp hx2 with ⟨p, hp, rfl⟩
            have hnb := (he2 p hp).2.1
            rw [hrec] at hnb
            rcases List.mem_singleton.mp hx1 with he
            exact hnb (he ▸ List.mem_cons_self _ _)
          · intro p hp
            rcases List.mem_append.mp hp with hp2 | hp1
            · obtain ⟨hA, hB, hC, hD, hE⟩ := he2 p hp2
              rw [hrec] at hB
              refine ⟨le_trans (Nat.le_succ depth) hA, ?_, hC, hD, ?_, ?_⟩
              · exact fun hmem => hB (List.mem_cons_of_mem _ hmem)
              · intro h
                exact absurd (h ▸ hA) (by omega)
              · intro hdp
                have hmem := hE hdp
                unfold pageLinkCandidates
                rw [hsoup]
                exact hmem
            · rcases List.mem_singleton.mp hp1 with rfl
              exact ⟨le_refl _, hnew, hv, hskip', fun _ => rfl, fun h => absurd h (by omega)⟩
          · rw [List.filter_append, List.length_append]
            have : (([(url, depth)] : List (Str × Nat)).filter
                (fun p => decide (p.2 = depth + 1))).length = 0 := by simp
            omega
          · intro _ _ _ _
            rw [hv2, hrec]
            exact List.mem_append_right _ (List.mem_cons_self _ _)
        · simp only [hgate, if_false]
          refine ⟨hInv1, hrecConc, ?_⟩
          intro _ _ _ _
          rw [recordVisit_eq]
          exact List.mem_cons_self _ _

theorem dictInsert_mem_keys_map (d : List (Str × Str)) (k v : Str)
    (h : k ∈ d.map Prod.fst) :
    (dictInsert d k v).map Prod.fst = d.map Prod.fst ∧
    (dictInsert d k v).length = d.length := by
  unfold dictInsert
  rw [if_pos h]
  constructor
  · rw [List.map_map]
    apply List.map_congr_left
    intro kv _
    by_cases hk : kv.1 = k
    · simp [hk]
    · simp [hk]
  · simp

theorem dictInsert_mem_update (d : List (Str × Str)) (k v : Str)
    (h : k ∈ d.map Prod.fst) (kv : Str × Str) (hkv : kv ∈ dictInsert d k v) :
    kv = (k, v) ∨ (kv ∈ d ∧ kv.1 ≠ k) := by
  unfold dictInsert at hkv
  rw [if_pos h] at hkv
  rcases List.mem_map.mp hkv with ⟨kv0, hkv0, rfl⟩
  by_cases hk : kv0.1 = k
  · left; simp [hk]
  · right
    constructor
    · simpa [hk] using hkv0
    · simp [hk]

theorem lookupKey_eq_some (d : List (Str × Str)) (k v : Str)
    (hnd : (d.map Prod.fst).Nodup) (h : (k, v) ∈ d) : lookupKey d k = some v := by
  induction d with
  | nil => cases h
  | cons kv rest ih =>
    rcases List.mem_cons.mp h with rfl | hmem
    · simp [lookupKey]
    · have hne : kv.1 ≠ k := by
        intro he
        have hk : k ∈ rest.map Prod.fst := (mem_keys_iff _ _).mpr ⟨v, hmem⟩
        rw [List.map_cons, List.nodup_cons] at hnd
        exact hnd.1 (he ▸ hk)
      simp only [lookupKey, if_neg hne]
      exact ih (by rw [List.map_cons, List.nodup_cons] at hnd; exact hnd.2) hmem

/-- One step of the seed loop of crawl_and_extract. -/
def seedStep (env : Env) (maxDepth : Nat) (st : CrawlSt) (url : Str) : CrawlSt :=
  if is_valid_url url = true then crawl env maxDepth (maxDepth + 1) 0 url st
  else { st with docs := dictInsert st.docs url (invalidUrlText url) }

theorem crawl_and_extract_eq (env : Env) (urls : List Str) (maxDepth : Nat) :
    crawl_and_extract env urls maxDepth = urls.foldl (seedStep env maxDepth) initSt := rfl

/-- The whole-run invariant of the seed loop: the crawl invariant, the exact
characterisation of the Document Map keys (visited pages plus invalid
processed seeds), the size equation, the presence of every accepted
processed seed, and an empty debug log. -/
def SeedsInv (processed : List Str) (st : CrawlSt) : Prop :=
  CrawlInv st ∧
  (∀ w : Str, w ∈ st.docs.map Prod.fst ↔
    (w ∈ st.visited ∨ (w ∈ processed ∧ is_valid_url w = false))) ∧
  st.docs.length = st.visited.length +
    ((processed.filter (fun w => !is_valid_url w)).toFinset.card) ∧
  (∀ s ∈ processed, is_valid_url s = true → should_skip_url s = false →
    s ∈ st.docs.map Prod.fst) ∧
  st.dbg = []

theorem seedStep_inv (env : Env) (maxDepth : Nat) (processed : List Str) (st : CrawlSt)
    (u : Str) (hS : SeedsInv processed st) :
    SeedsInv (processed ++ [u]) (seedStep env maxDepth st u) := by
  obtain ⟨hInv, hIff, hLen, hAcc, hDbg⟩ := hS
  unfold seedStep
  by_cases hvu : is_valid_url u = true
  · rw [if_pos hvu]
    obtain ⟨hInv', hConc, hVisit⟩ := crawl_master env maxDepth (maxDepth + 1) 0 u st hInv hvu
    obtain ⟨tr, ht, hvst, hd, hb, hnd, he, hc⟩ := hConc
    have hkeys : (crawl env maxDepth (maxDepth + 1) 0 u st).docs.map Prod.fst =
        st.docs.map Prod.fst ++ (tr.map Prod.fst).reverse := by
      rw [hd, List.map_append, List.map_map]
      congr 1
      simp [Function.comp]
    refine ⟨hInv', ?_, ?_, ?_, ?_⟩
    · intro w
      rw [hkeys, hvst, List.mem_append, List.mem_append, List.mem_reverse, hIff w]
      constructor
      · rintro ((hv1 | ⟨hp, hinv⟩) | htr)
        · exact Or.inl (Or.inr hv1)
        · exact Or.inr ⟨List.mem_append_left _ hp, hinv⟩
        · exact Or.inl (Or.inl htr)
      · rintro ((htr | hv1) | ⟨hp, hinv⟩)
        · exact Or.inr htr
        · exact Or.inl (Or.inl hv1)
        · rcases List.mem_append.mp hp with hp | hp
          · exact Or.inl (Or.inr ⟨hp, hinv⟩)
          · rcases List.mem_singleton.mp hp with rfl
            rw [hvu] at hinv
            cases hinv
    · have hfe : ((processed ++ [u]).filter (fun w => !is_valid_url w)) =
          (processed.filter (fun w => !is_valid_url w)) := by
        rw [List.filter_append]
        simp [hvu]
      have h1 : (crawl env maxDepth (maxDepth + 1) 0 u st).docs.length =
          st.docs.length + tr.length := by
        rw [hd]; simp
      have h2 : (crawl env maxDepth (maxDepth + 1) 0 u st).visited.length =
          tr.length + st.visited.length := by
        rw [hvst]; simp
      rw [h1, h2, hfe]
      omega
    · intro s hs hsv hss
      rcases List.mem_append.mp hs with hs | hs
      · have := hAcc s hs hsv hss
        rw [hkeys]
        exact List.mem_append_left _ this
      · rcases List.mem_singleton.mp hs with rfl
        by_cases hin : s ∈ st.visited
        · have := hInv.2.2.2.2.1 s hin
          rw [hkeys]
          exact List.mem_append_left _ this
        · have hv' := hVisit hin (by omega) hss (by omega)
          exact hInv'.2.2.2.2.1 s hv'
    · rw [hb, hDbg]
  · have hvu' : is_valid_url u = false := by
      cases h : is_valid_url u
      · rfl
      · exact absurd h hvu
    rw [if_neg hvu]
    have hnotvis : u ∉ st.visited := by
      intro hin
      have hval := (hInv.2.2.1 u hin).1
      rw [hvu'] at hval
      cases hval
    by_cases hmem : u ∈ st.docs.map Prod.fst
    · obtain ⟨hkeq, hleq⟩ := dictInsert_mem_keys_map st.docs u (invalidUrlText u) hmem
      have hup : u ∈ processed ∧ is_valid_url u = false :=
        ((hIff u).mp hmem).resolve_left (fun hin => absurd hin hnotvis)
      obtain ⟨h1, h2, h3, h4, h5, h6, h7⟩ := hInv
      refine ⟨⟨h1, h2, h3, ?_, ?_, ?_, ?_⟩, ?_, ?_, ?_, hDbg⟩
      · rw [show ({ st with docs := dictInsert st.docs u (invalidUrlText u) } : CrawlSt).docs =
            dictInsert st.docs u (invalidUrlText u) from rfl, hkeq]
        exact h4
      · intro w hw
        rw [show ({ st with docs := dictInsert st.docs u (invalidUrlText u) } : CrawlSt).docs =
            dictInsert st.docs u (invalidUrlText u) from rfl, hkeq]
        exact h5 w hw
      · intro kv hkv
        rcases dictInsert_mem_update st.docs u (invalidUrlText u) hmem kv hkv with rfl | ⟨hold, _⟩
        · exact List.cons_ne_nil _ _
        · exact h6 kv hold
      · intro kv hkv hnv
        rcases dictInsert_mem_update st.docs u (invalidUrlText u) hmem kv hkv with rfl | ⟨hold, _⟩
        · exact ⟨hvu', rfl⟩
        · exact h7 kv hold hnv
      · intro w
        rw [show ({ st with docs := dictInsert st.docs u (invalidUrlText u) } : CrawlSt).docs =
            dictInsert st.docs u (invalidUrlText u) from rfl, hkeq, hIff w]
        constructor
        · rintro (h | ⟨hp, hi⟩)
          · exact Or.inl h
          · exact Or.inr ⟨List.mem_append_left _ hp, hi⟩
        · rintro (h | ⟨hp, hi⟩)
          · exact Or.inl h
          · rcases List.mem_append.mp hp with hp | hp
            · exact Or.inr ⟨hp, hi⟩
            · rcases List.mem_singleton.mp hp with rfl
              exact (hIff w).mp hmem
      · have hfe : ((processed ++ [u]).filter (fun w => !is_valid_url w)).toFinset =
            (processed.filter (fun w => !is_valid_url w)).toFinset := by
          rw [List.filter_append]
          have hfu : ([u].filter (fun w => !is_valid_url w)) = [u] := by simp [hvu']
          rw [hfu, List.toFinset_append]
          have hmemf : u ∈ (processed.filter (fun w => !is_valid_url w)).toFinset := by
            rw [List.mem_toFinset, List.mem_filter]
            exact ⟨hup.1, by simp [hvu']⟩
          apply Finset.union_eq_left.mpr
          intro x hx
          rcases List.mem_singleton.mp (List.mem_toFinset.mp hx) with rfl
          exact hmemf
        rw [show ({ st with docs := dictInsert st.docs u (invalidUrlText u) } : CrawlSt).docs =
            dictInsert st.docs u (invalidUrlText u) from rfl, hleq, hfe]
        exact hLen
      · intro s hs hsv hss
        rw [show ({ st with docs := dictInsert st.docs u (invalidUrlText u) } : CrawlSt).docs =
            dictInsert st.docs u (invalidUrlText u) from rfl, hkeq]
        rcases List.mem_append.mp hs with hs | hs
        · exact hAcc s hs hsv hss
        · rcases List.mem_singleton.mp hs with rfl
          rw [hvu'] at hsv
          cases hsv
    · rw [dictInsert_not_mem _ _ _ hmem]
      obtain ⟨h1, h2, h3, h4, h5, h6, h7⟩ := hInv
      have hkeq : (st.docs ++ [(u, invalidUrlText u)]).map Prod.fst =
          st.docs.map Prod.fst ++ [u] := by
        rw [List.map_append]; rfl
      refine ⟨⟨h1, h2, h3, ?_, ?_, ?_, ?_⟩, ?_, ?_, ?_, hDbg⟩
      · rw [show ({ st with docs := st.docs ++ [(u, invalidUrlText u)] } : CrawlSt).docs =
            st.docs ++ [(u, invalidUrlText u)] from rfl, hkeq]
        refine List.Nodup.append h4 (List.nodup_singleton u) ?_
        intro a ha hb
        rcases List.mem_singleton.mp hb with rfl
        exact hmem ha
      · intro w hw
        rw [show ({ st with docs := st.docs ++ [(u, invalidUrlText u)] } : CrawlSt).docs =
            st.docs ++ [(u, invalidUrlText u)] from rfl, hkeq]
        exact List.mem_append_left _ (h5 w hw)
      · intro kv hkv
        rcases List.mem_append.mp hkv with hkv | hkv
        · exact h6 kv hkv
        · rcases List.mem_singleton.mp hkv with rfl
          exact List.cons_ne_nil _ _
      · intro kv hkv hnv
        rcases List.mem_append.mp hkv with hkv | hkv
        · exact h7 kv hkv hnv
        · rcases List.mem_singleton.mp hkv with rfl
          exact ⟨hvu', rfl⟩
      · intro w
        rw [show ({ st with docs := st.docs ++ [(u, invalidUrlText u)] } : CrawlSt).docs =
            st.docs ++ [(u, invalidUrlText u)] from rfl, hkeq, List.mem_append,
          List.mem_singleton, hIff w]
        constructor
        · rintro ((h | ⟨hp, hi⟩) | rfl)
          · exact Or.inl h
          · exact Or.inr ⟨List.mem_append_left _ hp, hi⟩
          · exact Or.inr ⟨List.mem_append_right _ (List.mem_singleton.mpr rfl), hvu'⟩
        · rintro (h | ⟨hp, hi⟩)
          · exact Or.inl (Or.inl h)
          · rcases List.mem_append.mp hp with hp | hp
            · exact Or.inl (Or.inr ⟨hp, hi⟩)
            · rcases List.mem_singleton.mp hp with rfl
              exact Or.inr rfl
      · have hunotf : u ∉ (processed.filter (fun w => !is_valid_url w)).toFinset := by
          rw [List.mem_toFinset, List.mem_filter]
          rintro ⟨hp, _⟩
          exact hmem ((hIff u).mpr (Or.inr ⟨hp, hvu'⟩))
        have hfe : ((processed ++ [u]).filter (fun w => !is_valid_url w)).toFinset.card =
            (processed.filter (fun w => !is_valid_url w)).toFinset.card + 1 := by
          rw [List.filter_append]
          have : ([u].filter (fun w => !is_valid_url w)) = [u] := by simp [hvu']
          rw [this, List.toFinset_append]
          have : (processed.filter (fun w => !is_valid_url w)).toFinset ∪ ([u] : List Str).toFinset =
              insert u (processed.filter (fun w => !is_valid_url w)).toFinset := by
            simp [Finset.union_comm, Finset.insert_eq]
          rw [this, Finset.card_insert_of_not_mem hunotf]
        rw [show ({ st with docs := st.docs ++ [(u, invalidUrlText u)] } : CrawlSt).docs =
            st.docs ++ [(u, invalidUrlText u)] from rfl, List.length_append, hfe, hLen]
        simp only [List.length_singleton]
        omega
      · intro s hs hsv hss
        rw [show ({ st with docs := st.docs ++ [(u, invalidUrlText u)] } : CrawlSt).docs =
            st.docs ++ [(u, invalidUrlText u)] from rfl, hkeq]
        rcases List.mem_append.mp hs with hs | hs
        · exact List.mem_append_left _ (hAcc s hs hsv hss)
        · rcases List.mem_singleton.mp hs with rfl
          rw [hvu'] at hsv
          cases hsv

theorem seeds_fold (env : Env) (maxDepth : Nat) :
    ∀ (urls processed : List Str) (st : CrawlSt), SeedsInv processed st →
      SeedsInv (processed ++ urls) (urls.foldl (seedStep env maxDepth) st) := by
  intro urls
  induction urls with
  | nil => intro processed st h; simpa using h
  | cons u rest ih =>
    intro processed st hS
    rw [List.foldl_cons]
    have hstep := seedStep_inv env maxDepth processed st u hS
    have := ih (processed ++ [u]) _ hstep
    simpa [List.append_assoc] using this

theorem seedsInv_init : SeedsInv [] initSt := by
  refine ⟨⟨rfl, List.nodup_nil, ?_, List.nodup_nil, ?_, ?_, ?_⟩, ?_, ?_, ?_, rfl⟩
  · intro u hu; cases hu
  · intro u hu; cases hu
  · intro kv hkv; cases hkv
  · intro kv hkv; cases hkv
  · intro w; simp [initSt]
  · simp [initSt]
  · intro s hs; cases hs

theorem crawl_and_extract_inv (env : Env) (urls : List Str) (maxDepth : Nat) :
    SeedsInv urls (crawl_and_extract env urls maxDepth) := by
  rw [crawl_and_extract_eq]
  simpa using seeds_fold env maxDepth urls [] initSt seedsInv_init

theorem count_eq_one_of_nodup_mem {l : List Str} {a : Str} (hnd : l.Nodup) (h : a ∈ l) :
    l.count a = 1 := by
  induction l with
  | nil => cases h
  | cons x xs ih =>
    rcases List.mem_cons.mp h with rfl | hmem
    · rw [List.count_cons_self]
      have hz : xs.count a = 0 := List.count_eq_zero.mpr (List.nodup_cons.mp hnd).1
      omega
    · have hne : x ≠ a := fun he => (List.nodup_cons.mp hnd).1 (he ▸ hmem)
      rw [List.count_cons_of_ne (fun he => hne he.symm)]
      exact ih (List.nodup_cons.mp hnd).2 hmem

/-- Claim C4: in every invocation of crawl_and_extract each URL is extracted
at most once (the extraction trace is duplicate-free and mirrors the visited
set), the Document Map's key set has no duplicates and consists exactly of
the URLs the crawl reached under the depth bound plus the invalid seeds'
literal-error entries, its size is the number of crawled URLs plus the
number of distinct invalid seeds, every recorded text is non-empty, and
every accepted seed has exactly one entry. -/
theorem crawl_and_extract_docmap_spec (env : Env) (urls : List Str) (maxDepth : Nat) :
    ((crawl_and_extract env urls maxDepth).docs.map Prod.fst).Nodup ∧
    ((crawl_and_extract env urls maxDepth).trace.map Prod.fst).Nodup ∧
    (crawl_and_extract env urls maxDepth).trace.map Prod.fst =
      (crawl_and_extract env urls maxDepth).visited ∧
    (∀ w : Str, w ∈ (crawl_and_extract env urls maxDepth).docs.map Prod.fst ↔
      (w ∈ (crawl_and_extract env urls maxDepth).visited ∨
        (w ∈ urls ∧ is_valid_url w = false))) ∧
    (crawl_and_extract env urls maxDepth).docs.length =
      (crawl_and_extract env urls maxDepth).visited.length +
        ((urls.filter (fun w => !is_valid_url w)).toFinset.card) ∧
    (∀ kv ∈ (crawl_and_extract env urls maxDepth).docs, kv.2 ≠ ([] : Str)) ∧
    (∀ seed ∈ urls, is_valid_url seed = true → should_skip_url seed = false →
      ((crawl_and_extract env urls maxDepth).docs.map Prod.fst).count seed = 1) := by
  obtain ⟨hInv, hIff, hLen, hAcc, hDbg⟩ := crawl_and_extract_inv env urls maxDepth
  obtain ⟨h1, h2, h3, h4, h5, h6, h7⟩ := hInv
  refine ⟨h4, by rw [h1]; exact h2, h1, hIff, hLen, h6, ?_⟩
  intro s hs hsv hss
  exact count_eq_one_of_nodup_mem h4 (hAcc s hs hsv hss)

/-- Witness for C4: a concrete accepted seed has exactly one map entry. -/
theorem crawl_and_extract_docmap_spec_wit :
    ((crawl_and_extract envAllFail [str "https://x.com"] 1).docs.map Prod.fst).count
      (str "https://x.com") = 1 :=
  (crawl_and_extract_docmap_spec envAllFail [str "https://x.com"] 1).2.2.2.2.2.2
    (str "https://x.com") (by decide) (by decide) (by decide)

theorem crawl_depth0 (env : Env) (url : Str) (st : CrawlSt) :
    crawl env 0 1 0 url st = st ∨
    crawl env 0 1 0 url st = recordVisit env url 0 st := by
  rw [crawl_succ]
  by_cases hg : url ∈ st.visited ∨ 0 < 0 ∨ should_skip_url url = true
  · rw [if_pos hg]
    exact Or.inl rfl
  · rw [if_neg hg]
    cases hsoup : (extract_content_with_guaranteed_fallback env url).2 with
    | none => exact Or.inr rfl
    | some doc =>
      have hgate : linkGate 0 0 (extract_content_with_guaranteed_fallback env url).1 = false := by
        simp [linkGate]
      right
      simp [hgate]

theorem trace_depth0_aux (env : Env) :
    ∀ (urls : List Str) (st : CrawlSt),
      ∀ p ∈ (urls.foldl (seedStep env 0) st).trace,
        p ∈ st.trace ∨ (p.2 = 0 ∧ p.1 ∈ urls) := by
  intro urls
  induction urls with
  | nil => intro st p hp; exact Or.inl hp
  | cons u rest ih =>
    intro st p hp
    rw [List.foldl_cons] at hp
    rcases ih (seedStep env 0 st u) p hp with hin | ⟨hd, hm⟩
    · unfold seedStep at hin
      by_cases hv : is_valid_url u = true
      · rw [if_pos hv] at hin
        rcases crawl_depth0 env u st with he | he
        · rw [he] at hin
          exact Or.inl hin
        · rw [he, recordVisit_eq] at hin
          rcases List.mem_cons.mp hin with rfl | hin
          · exact Or.inr ⟨rfl, List.mem_cons_self _ _⟩
          · exact Or.inl hin
      · rw [if_neg hv] at hin
        exact Or.inl hin
    · exact Or.inr ⟨hd, List.mem_cons_of_mem _ hm⟩

/-- Claim C5: with max_depth zero no links are ever followed (every
extraction in the run is a seed at depth zero); a page whose text carries
the FALLBACK CONTENT FOR marker suppresses link discovery entirely (the
call reduces to the record step, even if a document tree with anchors came
back); and in general a call recurses at depth+1 into at most 3 URLs, each
an anchor-resolved, valid, same-host, previously unvisited, non-skip link
of the page. -/
theorem crawl_link_policy :
    (∀ (env : Env) (urls : List Str),
      ∀ p ∈ (crawl_and_extract env urls 0).trace, p.2 = 0 ∧ p.1 ∈ urls) ∧
    (∀ (env : Env) (maxDepth fuel depth : Nat) (url : Str) (st : CrawlSt),
      url ∉ st.visited → depth ≤ maxDepth → should_skip_url url = false →
      subOf (str "FALLBACK CONTENT FOR: " ++ url)
        (extract_content_with_guaranteed_fallback env url).1 = true →
      crawl env maxDepth (fuel + 1) depth url st = recordVisit env url depth st) ∧
    (∀ (env : Env) (maxDepth fuel depth : Nat) (url : Str) (st : CrawlSt),
      CrawlInv st → is_valid_url url = true →
      ∃ tr : List (Str × Nat),
        (crawl env maxDepth fuel depth url st).trace = tr ++ st.trace ∧
        (tr.filter (fun p => decide (p.2 = depth + 1))).length ≤ 3 ∧
        (∀ p ∈ tr, depth ≤ p.2 ∧ p.1 ∉ st.visited ∧
          (p.2 = depth + 1 → p.1 ∈ pageLinkCandidates env url))) := by
  refine ⟨?_, ?_, ?_⟩
  · intro env urls p hp
    rcases trace_depth0_aux env urls initSt p (by
      rw [← crawl_and_extract_eq]; exact hp) with hin | h
    · cases hin
    · exact h
  · intro env maxDepth fuel depth url st hnew hdep hskip hmark
    rw [crawl_succ]
    rw [if_neg (by
      push_neg
      refine ⟨hnew, by omega, by simp [hskip]⟩)]
    cases hsoup : (extract_content_with_guaranteed_fallback env url).2 with
    | none => rfl
    | some doc =>
      have hsplit : str "FALLBACK CONTENT FOR: " =
          str "FALLBACK CONTENT" ++ str " FOR: " := by decide
      rw [hsplit, List.append_assoc] at hmark
      have hfb : subOf (str "FALLBACK CONTENT")
          (extract_content_with_guaranteed_fallback env url).1 = true :=
        subOf_append_of_subOf _ _ _ hmark
      have hgate : linkGate maxDepth depth
          (extract_content_with_guaranteed_fallback env url).1 = false := by
        simp [linkGate, hfb]
      simp [hgate]
  · intro env maxDepth fuel depth url st hInv hv
    obtain ⟨_, hConc, _⟩ := crawl_master env maxDepth fuel depth url st hInv hv
    obtain ⟨tr, ht, _, _, _, _, he, hc⟩ := hConc
    exact ⟨tr, ht, hc, fun p hp =>
      ⟨(he p hp).1, (he p hp).2.1, (he p hp).2.2.2.2.2⟩⟩

/-- Witness for C5: fallback-marked text suppresses link discovery at a
concrete URL and state. -/
theorem crawl_link_policy_wit :
    crawl envAllFail 1 1 0 (str "https://x.com") initSt =
      recordVisit envAllFail (str "https://x.com") 0 initSt :=
  crawl_link_policy.2.1 envAllFail 1 0 0 (str "https://x.com") initSt
    (by decide) (by decide) (by decide) (by decide)

/-- Claim C9: every syntactically invalid seed is recorded immediately with
the literal invalid-URL error text and never reaches extraction (it is
absent from the extraction trace); the concrete seed "not a url" yields
exactly the claimed one-entry Document Map and nothing else. -/
theorem invalid_seed_spec :
    (∀ (env : Env) (urls : List Str) (maxDepth : Nat) (seed : Str), seed ∈ urls →
      is_valid_url seed = false →
      lookupKey (crawl_and_extract env urls maxDepth).docs seed =
        some (invalidUrlText seed) ∧
      ∀ p ∈ (crawl_and_extract env urls maxDepth).trace, p.1 ≠ seed) ∧
    crawl_and_extract envAllFail [str "not a url"] 1 =
      ⟨[], [(str "not a url", invalidUrlText (str "not a url"))], [], []⟩ := by
  constructor
  · intro env urls maxDepth seed hs hinv
    obtain ⟨hInv, hIff, hLen, hAcc, hDbg⟩ := crawl_and_extract_inv env urls maxDepth
    obtain ⟨h1, h2, h3, h4, h5, h6, h7⟩ := hInv
    have hk : seed ∈ (crawl_and_extract env urls maxDepth).docs.map Prod.fst :=
      (hIff seed).mpr (Or.inr ⟨hs, hinv⟩)
    rcases (mem_keys_iff _ _).mp hk with ⟨v, hv⟩
    have hnv : seed ∉ (crawl_and_extract env urls maxDepth).visited := by
      intro hin
      have hval := (h3 seed hin).1
      rw [hinv] at hval
      cases hval
    have hval := h7 (seed, v) hv hnv
    constructor
    · rw [← hval.2]
      exact lookupKey_eq_some _ _ _ h4 hv
    · intro p hp hpe
      have hmem : p.1 ∈ (crawl_and_extract env urls maxDepth).visited := by
        rw [← h1]
        exact List.mem_map.mpr ⟨p, hp, rfl⟩
      rw [hpe] at hmem
      exact hnv hmem
  · decide

/-- Witness for C9: the general clause applied to the concrete invalid seed. -/
theorem invalid_seed_spec_wit :
    lookupKey (crawl_and_extract envAllFail [str "not a url"] 1).docs (str "not a url") =
      some (invalidUrlText (str "not a url")) :=
  (invalid_seed_spec.1 envAllFail [str "not a url"] 1 (str "not a url")
    (by decide) (by decide)).1

/-- Claim C10: the debug-artifact branch fires only when a document tree is
present with empty text; since the guaranteed extraction wrapper never
returns empty text, the record step never extends the debug log and a whole
crawl writes no debug artifact. -/
theorem debug_branch_unreachable :
    (∀ (env : Env) (urls : List Str) (maxDepth : Nat),
      (crawl_and_extract env urls maxDepth).dbg = []) ∧
    (∀ (env : Env) (url : Str) (depth : Nat) (st : CrawlSt),
      (recordVisit env url depth st).dbg = st.dbg) := by
  constructor
  · intro env urls maxDepth
    exact (crawl_and_extract_inv env urls maxDepth).2.2.2.2
  · intro env url depth st
    rw [recordVisit_eq]
